import Mathlib

/-!
Shallow embedding of the Game of War simulation
(`src/gameoflife/gameofwar.py`, with `cell.py` and `team.py`).

Python dictionaries are modelled as insertion-ordered association lists,
Python `set` as a deduplicated list, and machine integers as `Int`/`Nat`.
Team objects are identified by their display symbol (`view`): within one
simulation run at most one `Team` object per view is ever created, so the
view is a faithful identity key.  Mutable `Team.score` fields become an
explicit score map threaded through every operation.
-/

namespace GameOfWar

/-- Grid positions as integer pairs, mirroring the Python `(x, y)` tuples. -/
abbrev Pos := Int × Int

/-- Model of `cell.py`: a cell stores its coordinates, its owning team
(identified by the team's display symbol) and its remaining age. -/
structure Cell where
  x : Int
  y : Int
  team : String
  age : Int
deriving DecidableEq

/-- Association-list lookup, modelling Python `dict[k]` / `k in dict`. -/
def alGet {κ ν : Type} [BEq κ] (l : List (κ × ν)) (k : κ) : Option ν :=
  (l.find? (fun e => e.1 == k)).map (·.2)

/-- Association-list update, modelling Python `d[k] = v`: an existing key
keeps its place in insertion order, a new key is appended at the end. -/
def alPut {κ ν : Type} [BEq κ] (l : List (κ × ν)) (k : κ) (v : ν) : List (κ × ν) :=
  if (l.find? (fun e => e.1 == k)).isSome then
    l.map (fun e => if e.1 == k then (k, v) else e)
  else l ++ [(k, v)]

/-- Reading `team.score`; every team that occurs was created with score 0,
so a missing entry reads as 0. -/
def getScore (scores : List (String × Int)) (t : String) : Int :=
  (alGet scores t).getD 0

/-- Model of the configurable board properties (`load_defaults`). -/
structure Props where
  width : Int
  height : Int
  refresh : Int
  deathAge : Int
  winRound : Nat
  toKill : Nat
  output : String
deriving DecidableEq

/-- Default property values set by `load_defaults`. -/
def defaultProps : Props :=
  { width := 30, height := 30, refresh := 4, deathAge := 4,
    winRound := 512, toKill := 3, output := "true" }

/-- The eight neighbour offsets `(dx, dy)` in the iteration order of
`_get_neighbours` (`y_offset` outer loop, `x_offset` inner loop, the pair
`(0, 0)` skipped). -/
def neighbourOffsets : List (Int × Int) :=
  [(-1, -1), (0, -1), (1, -1), (-1, 0), (1, 0), (-1, 1), (0, 1), (1, 1)]

/-- Bounds check of `_get_neighbours`: inside `[0, width) × [0, height)`. -/
def inBounds (w h : Int) (p : Pos) : Bool :=
  0 ≤ p.1 && p.1 < w && 0 ≤ p.2 && p.2 < h

/-- The in-bounds neighbour positions of `(x, y)`, in source iteration order. -/
def neighbourPositions (w h : Int) (x y : Int) : List Pos :=
  (neighbourOffsets.map (fun d => (x + d.1, y + d.2))).filter (inBounds w h)

/-- Model of `GameOfWar._get_neighbours`: the in-bounds 8-neighbourhood of
`(x, y)` split into the cells stored at occupied positions (`alive`) and the
unoccupied positions (`dead`), both in source iteration order. -/
def getNeighbours (w h : Int) (cells : List (Pos × Cell)) (x y : Int) :
    List Cell × List Pos :=
  let ps := neighbourPositions w h x y
  (ps.filterMap (fun p => alGet cells p), ps.filter (fun p => (alGet cells p).isNone))

/-- The simulation state: the Cell Store (`self.cells`), the Team Registry
keys (`self.teams`, keyed by view) and each team object's score field. -/
structure GameState where
  cells : List (Pos × Cell)
  teams : List String
  scores : List (String × Int)
deriving DecidableEq

/-- Python runtime errors raised by the modelled code paths. -/
inductive PyErr where
  | valueError
  | typeError
  | attributeError
  | indexError
  | keyError
deriving DecidableEq

/-- Adding a position to the Python `set` of revival candidates; the set is
modelled as a deduplicated list in insertion order. -/
def addDead (l : List Pos) (p : Pos) : List Pos :=
  if l.contains p then l else l ++ [p]

/-- Intermediate state of Pass A of `_update_cells`: the next generation
built so far, the revival-candidate set, and the mutated scores/registry. -/
structure AState where
  newCells : List (Pos × Cell)
  deadCells : List Pos
  scores : List (String × Int)
  teams : List String
deriving DecidableEq

/-- Body of the first loop of `_update_cells` for one cell of the current
generation: `cell.update()` decrements the age and reports survival; a
survivor collects dead neighbour positions, counts enemy neighbours, and is
either carried over or killed (score decrement, registry removal at zero).
Python's `del self.teams[cell.team.view]` removes a present key and raises
`KeyError` when the key is absent — which is reachable, because Pass B can
revive a team whose registry entry Pass A removed (the revival tallies the
pre-round snapshot and never re-registers the team), and a later kill then
takes that team's score back to zero with the key gone. -/
def passAStep (props : Props) (snap : List (Pos × Cell)) (st : AState)
    (cell : Cell) : Except PyErr AState :=
  let age := cell.age - 1
  if age > 0 then
    let nb := getNeighbours props.width props.height snap cell.x cell.y
    let deadCells := nb.2.foldl addDead st.deadCells
    let enemies := (nb.1.filter (fun n => n.team != cell.team)).length
    if enemies < props.toKill then
      .ok { st with newCells := alPut st.newCells (cell.x, cell.y) { cell with age := age },
                    deadCells := deadCells }
    else
      let s := getScore st.scores cell.team - 1
      if s = 0 then
        if st.teams.contains cell.team then
          .ok { st with deadCells := deadCells,
                        scores := alPut st.scores cell.team s,
                        teams := st.teams.erase cell.team }
        else .error .keyError
      else
        .ok { st with deadCells := deadCells,
                      scores := alPut st.scores cell.team s }
  else .ok st

/-- Pass A of `_update_cells`: the first loop, over every cell of the
current generation, reading neighbours from the unmodified snapshot; the
first raised `KeyError` aborts the loop and propagates. -/
def passA (props : Props) (s : GameState) : Except PyErr AState :=
  s.cells.foldlM (fun st e => passAStep props s.cells st e.2)
    { newCells := [], deadCells := [], scores := s.scores, teams := s.teams }

/-- State threaded through Pass B: the next generation and the scores. -/
structure BState where
  newCells : List (Pos × Cell)
  scores : List (String × Int)
deriving DecidableEq

/-- The `controllers` tally of Pass B: per-team counts of the alive
neighbours, keyed by team in first-occurrence order. -/
def controllersOf (alive : List Cell) : List (String × Nat) :=
  alive.foldl (fun acc c => alPut acc c.team ((alGet acc c.team).getD 0 + 1)) []

/-- The final selection of the revival loop over the score-sorted tied
teams: `continue` when the top two scores are equal, otherwise the head
(`highest[0]`) controls.  The `[]` case is unreachable under the caller's
≥ 3 guard (Python would raise `IndexError` on `highest[0]` there). -/
def pickDominant (scores : List (String × Int)) : List String → Option String
  | [] => none
  | [t] => some t
  | t1 :: t2 :: _ =>
    if getScore scores t1 = getScore scores t2 then none else some t1

/-- The dominant-team selection of the revival loop of `_update_cells`:
sort the tally descending (Python `sorted` with `reverse=True` is a stable
descending sort, as is `mergeSort` with this comparison), keep the prefix
of teams tied on the maximum tally (the loop breaks at the first smaller
control value), sort those by current score descending, and pick the
dominant team from the result. -/
def passBPick (scores : List (String × Int)) (alive : List Cell) :
    Option String :=
  let controllers := controllersOf alive
  let dominantTeams := controllers.mergeSort (fun a b => decide (b.2 ≤ a.2))
  let maxControl := (dominantTeams.headD ("", 0)).2
  let highest := (dominantTeams.takeWhile (fun tc => !(decide (tc.2 < maxControl)))).map (·.1)
  let sortedHighest :=
    highest.mergeSort (fun a b => decide (getScore scores b ≤ getScore scores a))
  pickDominant scores sortedHighest

/-- Body of the revival loop of `_update_cells` for one candidate position:
require at least 3 alive neighbours, determine the dominant team, and on
success insert a new cell with age `death-age` at the candidate position
and increment the dominant team's score (the source's single insertion
site after the tie-break). -/
def passBStep (props : Props) (snap : List (Pos × Cell)) (st : BState)
    (p : Pos) : BState :=
  let alive := (getNeighbours props.width props.height snap p.1 p.2).1
  if alive.length < 3 then st
  else
    match passBPick st.scores alive with
    | none => st
    | some t =>
      { newCells := alPut st.newCells p ⟨p.1, p.2, t, props.deathAge⟩,
        scores := alPut st.scores t (getScore st.scores t + 1) }

/-- Pass B of `_update_cells` over an explicit processing order of the
candidate set (the source iterates a Python `set`, whose order is
unspecified). -/
def passB (props : Props) (snap : List (Pos × Cell)) (st : BState)
    (order : List Pos) : BState :=
  order.foldl (passBStep props snap) st

/-- Model of `GameOfWar._update_cells` with an explicit Pass B order. -/
def updateCellsWith (props : Props) (s : GameState) (order : List Pos) :
    Except PyErr GameState :=
  match passA props s with
  | .error e => .error e
  | .ok a =>
    let b := passB props s.cells { newCells := a.newCells, scores := a.scores } order
    .ok { cells := b.newCells, teams := a.teams, scores := b.scores }

/-- Model of `GameOfWar._update_cells`, processing the candidate set in its
insertion order; a `KeyError` raised in Pass A propagates and the Cell
Store is left unassigned. -/
def updateCells (props : Props) (s : GameState) : Except PyErr GameState :=
  match passA props s with
  | .error e => .error e
  | .ok a =>
    let b := passB props s.cells { newCells := a.newCells, scores := a.scores }
      a.deadCells
    .ok { cells := b.newCells, teams := a.teams, scores := b.scores }

/-- Model of the game loop of `GameOfWar.start`, without the wall-clock
pacing (the `refresh` timer only delays rounds and the round counter logic
is unaffected) and without console output.  The fuel argument is the
number of rounds still allowed, `win-round - round_number`, so the loop
guard `round_number < win-round` is the `Nat.succ` case.  When exactly one
team remains after a round, the source runs
`winner = self.teams.values()[0]`, and a `dict_values` object is not
subscriptable in Python 3, so that branch raises `TypeError`.  At the
round limit (`while`/`else`) the winner is the head of the registry sorted
by score descending (`IndexError` on an empty registry). -/
def startFrom (props : Props) : Nat → GameState → Except PyErr (String × GameState)
  | 0, s =>
    match s.teams.mergeSort
        (fun a b => decide (getScore s.scores b ≤ getScore s.scores a)) with
    | [] => .error .indexError
    | w :: _ => .ok (w, s)
  | Nat.succ k, s =>
    match updateCells props s with
    | .error e => .error e
    | .ok s1 =>
      if s1.teams.length == 1 then .error .typeError
      else startFrom props k s1

/-- Model of `GameOfWar.start` from round 0. -/
def start (props : Props) (s : GameState) : Except PyErr (String × GameState) :=
  startFrom props props.winRound s

/-! ## Configuration loading (`set_property` / `load_config`) -/

/-- The property names present in the dictionary after `load_defaults`;
`set_property` rejects every other name. -/
def propNames : List String :=
  ["width", "height", "refresh", "death-age", "win-round", "to-kill", "output"]

/-- Python `str.isdigit` (restricted to the ASCII digits that occur in
config values): non-empty and all characters digits. -/
def pyIsDigit (s : String) : Bool :=
  !s.data.isEmpty && s.data.all Char.isDigit

/-- Python `int(s)` for an all-digit string. -/
def pyToNat (s : String) : Nat :=
  s.data.foldl (fun n c => n * 10 + (c.toNat - 48)) 0

/-- Python `str.lower` (ASCII). -/
def pyToLower (s : String) : String :=
  ⟨s.data.map Char.toLower⟩

/-- Model of `GameOfWar.set_property`: reject unknown names, convert the
value (`int(val)` when `val.isdigit()`, `val.lower()` otherwise), validate
and update.  A non-digit value for a numeric property makes `between`
compare an `int` with a `str`, which raises `TypeError` in Python 3; a
digit value for `output` makes the validator call `int.lower()`, which
raises `AttributeError`. -/
def setProperty (props : Props) (prop val : String) : Except PyErr Props :=
  if !(propNames.contains prop) then .error .valueError
  else
    match if pyIsDigit val then some (pyToNat val) else none with
    | some n =>
      let v : Int := n
      if prop == "width" then
        if 10 ≤ v ∧ v ≤ 100 then .ok { props with width := v } else .error .valueError
      else if prop == "height" then
        if 10 ≤ v ∧ v ≤ 50 then .ok { props with height := v } else .error .valueError
      else if prop == "refresh" then
        if 1 ≤ v ∧ v ≤ 60 then .ok { props with refresh := v } else .error .valueError
      else if prop == "death-age" then
        if 1 ≤ v ∧ v ≤ 32 then .ok { props with deathAge := v } else .error .valueError
      else if prop == "win-round" then
        if 128 ≤ n ∧ n ≤ 65536 then .ok { props with winRound := n } else .error .valueError
      else if prop == "to-kill" then
        if 1 ≤ n ∧ n ≤ 8 then .ok { props with toKill := n } else .error .valueError
      else .error .attributeError
    | none =>
      let s := pyToLower val
      if prop == "output" then
        if s == "true" || s == "false" then .ok { props with output := s }
        else .error .valueError
      else .error .typeError

/-- Model of `GameOfWar.load_config` over the parsed `key:value` lines: the
loop calls `set_property` line by line, mutating `self.properties` as it
goes; the first exception aborts the loop, but the updates made by the
earlier lines remain applied.  Returns the final properties together with
the raised exception, if any. -/
def loadConfig (props : Props) : List (String × String) → Props × Option PyErr
  | [] => (props, none)
  | (k, v) :: rest =>
    match setProperty props k v with
    | .ok p => loadConfig p rest
    | .error e => (props, some e)

/-- All-or-nothing application of config lines, used to state what a
non-partial load would produce. -/
def applyAll (props : Props) : List (String × String) → Except PyErr Props
  | [] => .ok props
  | (k, v) :: rest =>
    match setProperty props k v with
    | .ok p => applyAll p rest
    | .error e => .error e

/-! ## Cell loading (`load_cells`) -/

/-- Python `str == int` comparison: it is always `False` (no exception),
which makes the malformed-line guard in `load_cells` dead code. -/
def pyStrIntEq (_ : String) (_ : Int) : Bool := false

/-- Team creation on first sighting of a symbol (`self.teams[value] =
Team(value)`, a fresh team with score 0). -/
def ensureTeam (st : GameState) (t : String) : GameState :=
  if st.teams.contains t then st
  else { st with teams := st.teams ++ [t], scores := alPut st.scores t 0 }

/-- The per-cell body of the `for x in range(x, x+amount)` loop of
`load_cells`: create the team on first sighting, store the cell, and
increment the team's score. -/
def placeRun (deathAge : Int) (t : String) (y : Int) : Nat → Int → GameState → GameState
  | 0, _, st => st
  | Nat.succ m, x, st =>
    let st1 := ensureTeam st t
    let st2 := { st1 with
      cells := alPut st1.cells (x, y) ⟨x, y, t, deathAge⟩,
      scores := alPut st1.scores t (getScore st1.scores t + 1) }
    placeRun deathAge t y m (x + 1) st2

/-- Applying one complete `<count><symbol>` token of `load_cells` to the
state.  The guard `value == -1 and amount != -1` compares a `str` with an
`int`, which is always `False`, so its `ValueError` is unreachable.  A
`"."` symbol skips `amount` cells (`x += amount`, `continue`); any other
symbol — including the empty string produced when the row ends in digits —
places `amount` cells.  After a placed run the cursor advances by `amount`
(by 1 when `amount = 0`, because the `for` loop then leaves `x` untouched
and the trailing `x += 1` still runs).  Returns the new state and cursor. -/
def applyToken (deathAge : Int) (y : Int) (st : GameState) (amount : Nat)
    (value : String) (x : Int) : Except PyErr (GameState × Int) :=
  if pyStrIntEq value (-1) && decide ((amount : Int) ≠ -1) then
    .error .valueError
  else if value == "." then
    .ok (st, x + amount)
  else
    let st1 := placeRun deathAge value y amount x st
    let x1 : Int := if amount = 0 then x + 1 else x + amount
    .ok (st1, x1)

/-- Model of the row loop of `load_cells`, consuming the row character by
character exactly as the source's `char_gen` iterator does.  The second
argument is the digit accumulator of the current token: `none` while no
digit has been fetched yet.  An empty digit run (`not amount`) breaks out
of the loop: a row starting with a non-digit, a non-digit right after a
completed token, or the end of the row.  When the row ends inside or right
after a digit run, `next(char_gen, "")` yields `""`, so the token is
applied with the empty-string symbol and the next iteration breaks. -/
def parseRow (deathAge : Int) (y : Int) :
    List Char → Option Nat → Int → GameState → Except PyErr GameState
  | [], none, _, st => .ok st
  | [], some amount, x, st =>
    match applyToken deathAge y st amount "" x with
    | .ok _st1 => .ok _st1.1
    | .error e => .error e
  | c :: cs, none, x, st =>
    if c.isDigit then parseRow deathAge y cs (some (c.toNat - 48)) x st
    else .ok st
  | c :: cs, some amount, x, st =>
    if c.isDigit then
      parseRow deathAge y cs (some (amount * 10 + (c.toNat - 48))) x st
    else
      match applyToken deathAge y st amount (String.singleton c) x with
      | .ok st1 => parseRow deathAge y cs none st1.2 st1.1
      | .error e => .error e

/-- Model of `GameOfWar.load_cells` over the stripped rows of the file:
rows are parsed top to bottom with `y` the row index and `x` restarting at
0 on each row. -/
def loadCellsFrom (deathAge : Int) : List (List Char) → Int → GameState →
    Except PyErr GameState
  | [], _, st => .ok st
  | row :: rows, y, st =>
    match parseRow deathAge y row none 0 st with
    | .ok st1 => loadCellsFrom deathAge rows (y + 1) st1
    | .error e => .error e

/-- Loading a cells file into the freshly initialised (empty) state. -/
def loadCells (deathAge : Int) (rows : List (List Char)) :
    Except PyErr GameState :=
  loadCellsFrom deathAge rows 0 { cells := [], teams := [], scores := [] }

/-! ## Specification-side definitions

These restate parts of the spec in its own words, to be compared with the
definitions above that were translated from the source. -/

/-- Number of cells of team `t` in a Cell Store. -/
def countTeamCells (cells : List (Pos × Cell)) (t : String) : Nat :=
  (cells.filter (fun e => e.2.team == t)).length

/-- Per-team tally of the alive neighbours. -/
def teamTally (alive : List Cell) (t : String) : Nat :=
  (alive.filter (fun c => c.team == t)).length

/-- The teams that occur among the alive neighbours. -/
def aliveTeams (alive : List Cell) : List String :=
  (alive.map (fun c => c.team)).dedup

/-- The maximum per-team tally among the alive neighbours. -/
def maxTallyOf (alive : List Cell) : Nat :=
  ((aliveTeams alive).map (teamTally alive)).foldl max 0

/-- The teams whose tally attains the maximum. -/
def tiedTeams (alive : List Cell) : List String :=
  (aliveTeams alive).filter (fun t => teamTally alive t == maxTallyOf alive)

/-- The tied team with the strictly highest score, when one exists. -/
def strictMaxScore (scores : List (String × Int)) (tied : List String) :
    Option String :=
  match tied.filter
      (fun t => tied.all (fun u => u == t || decide (getScore scores u < getScore scores t))) with
  | [t] => some t
  | _ => none

/-- The controlling team of a revival candidate, as the spec words it: the
team with the strictly maximum tally, or, when several teams tie on the
maximum tally, the tied team with the strictly highest current score; no
controller when the top two tied teams have equal scores. -/
def specController (scores : List (String × Int)) (alive : List Cell) :
    Option String :=
  match tiedTeams alive with
  | [] => none
  | [t] => some t
  | _ :: _ :: _ => strictMaxScore scores (tiedTeams alive)

/-- Pass B per-candidate step as the spec words it: at least 3 alive
neighbours in the pre-round snapshot and a unique controlling team; on
revival, insert a new cell with the controlling team and lifespan
`death-age` and increment that team's score. -/
def specPassBStep (props : Props) (snap : List (Pos × Cell)) (st : BState)
    (p : Pos) : BState :=
  let alive := (getNeighbours props.width props.height snap p.1 p.2).1
  if alive.length < 3 then st
  else
    match specController st.scores alive with
    | none => st
    | some t =>
      { newCells := alPut st.newCells p ⟨p.1, p.2, t, props.deathAge⟩,
        scores := alPut st.scores t (getScore st.scores t + 1) }

/-- A Cell Store holds at most one cell per position when its keys are
pairwise distinct. -/
def keysNodup (cells : List (Pos × Cell)) : Prop :=
  (cells.map (fun e => e.1)).Nodup

/-- `p` is one of the eight positions offset from `(x, y)` by
`(dx, dy) ∈ \x7b-1,0,1\x7d² \ \x7b(0,0)\x7d`. -/
def isNeighbourPos (x y : Int) (p : Pos) : Prop :=
  ∃ dx dy : Int, dx ∈ ([-1, 0, 1] : List Int) ∧ dy ∈ ([-1, 0, 1] : List Int) ∧
    ¬(dx = 0 ∧ dy = 0) ∧ p = (x + dx, y + dy)

/-! ## Concrete states used by the claim theorems -/

/-- One team, one cell with remaining lifespan 1: the cell dies of old age
in the next round. -/
def exAge : GameState :=
  { cells := [((5, 5), ⟨5, 5, "x", 1⟩)], teams := ["x"], scores := [("x", 1)] }

/-- A single team with a single long-lived cell. -/
def exSolo : GameState :=
  { cells := [((5, 5), ⟨5, 5, "x", 5⟩)], teams := ["x"], scores := [("x", 1)] }

/-- Two teams; the lone `"y"` cell has three `"x"` neighbours, so with
`to-kill = 3` team `"y"` is eliminated in the first round. -/
def exWipe : GameState :=
  { cells := [((4, 4), ⟨4, 4, "x", 5⟩), ((4, 5), ⟨4, 5, "x", 5⟩),
              ((4, 6), ⟨4, 6, "x", 5⟩), ((5, 5), ⟨5, 5, "y", 5⟩)],
    teams := ["x", "y"], scores := [("x", 3), ("y", 1)] }

/-- Two teams with equal scores.  Candidate `(1,1)` has three `"a"`
neighbours (unique dominant team); candidate `(5,5)` has two `"a"` and two
`"b"` neighbours (tally tie, scores initially equal). -/
def exOrder : GameState :=
  { cells := [((0, 0), ⟨0, 0, "a", 5⟩), ((1, 0), ⟨1, 0, "a", 5⟩),
              ((2, 0), ⟨2, 0, "a", 5⟩), ((4, 4), ⟨4, 4, "a", 5⟩),
              ((4, 5), ⟨4, 5, "a", 5⟩), ((6, 4), ⟨6, 4, "b", 5⟩),
              ((6, 5), ⟨6, 5, "b", 5⟩), ((9, 0), ⟨9, 0, "b", 5⟩),
              ((9, 2), ⟨9, 2, "b", 5⟩), ((0, 9), ⟨0, 9, "b", 5⟩)],
    teams := ["a", "b"], scores := [("a", 5), ("b", 5)] }

/-- The Pass A result of a state on which Pass A raises nothing; the error
case defaults to the empty result, and every theorem built on this also
pins the actual `.ok` value. -/
def passAOk (props : Props) (s : GameState) : AState :=
  (passA props s).toOption.getD
    { newCells := [], deadCells := [], scores := [], teams := [] }

/-- The candidate set of `exOrder` reordered so that the tie candidate
`(5,5)` is processed before every revival. -/
def exOrderSwapped : List Pos :=
  (5, 5) :: ((passAOk defaultProps exOrder).deadCells.erase (5, 5))

/-- Two teams with equal pre-round scores; the `"b"` cell at `(8,8)` has
three `"a"` neighbours and is killed in Pass A, and candidate `(5,5)` has
a 2–2 tally tie between `"a"` and `"b"`. -/
def exKill : GameState :=
  { cells := [((4, 4), ⟨4, 4, "a", 5⟩), ((4, 5), ⟨4, 5, "a", 5⟩),
              ((7, 7), ⟨7, 7, "a", 5⟩), ((7, 8), ⟨7, 8, "a", 5⟩),
              ((7, 9), ⟨7, 9, "a", 5⟩), ((6, 4), ⟨6, 4, "b", 5⟩),
              ((6, 5), ⟨6, 5, "b", 5⟩), ((8, 8), ⟨8, 8, "b", 5⟩),
              ((0, 9), ⟨0, 9, "b", 5⟩), ((2, 9), ⟨2, 9, "b", 5⟩)],
    teams := ["a", "b"], scores := [("a", 5), ("b", 5)] }

/-- Properties for the phantom-team trace: a 10 × 10 grid with
`to-kill = 2` and `death-age = 10`, all within the documented ranges. -/
def phantomProps : Props :=
  { defaultProps with width := 10, height := 10, deathAge := 10, toKill := 2 }

/-- A loadable three-team state.  In round 1 the three `"y"` cells are all
killed (two or more `"x"` enemies each), which takes `"y"` to score 0 and
removes it from the registry; candidate `(5,5)` still sees the three
snapshot `"y"` cells as its only alive neighbours and is revived as `"y"`
without re-registration, while `(6,4)` and `(6,5)` are revived as `"x"`
next to it.  Team `"b"` sits isolated so two teams stay registered and the
loop continues.  In round 2 the phantom `"y"` cell at `(5,5)` has two
`"x"` enemies, is killed, and its score returns to 0 with `"y"` absent
from the registry: `del self.teams["y"]` raises `KeyError`. -/
def exPhantom : GameState :=
  { cells := [((4, 4), ⟨4, 4, "y", 10⟩), ((4, 5), ⟨4, 5, "y", 10⟩),
              ((4, 6), ⟨4, 6, "y", 10⟩),
              ((3, 3), ⟨3, 3, "x", 10⟩), ((3, 4), ⟨3, 4, "x", 10⟩),
              ((3, 5), ⟨3, 5, "x", 10⟩), ((3, 6), ⟨3, 6, "x", 10⟩),
              ((3, 7), ⟨3, 7, "x", 10⟩),
              ((7, 3), ⟨7, 3, "x", 10⟩), ((7, 4), ⟨7, 4, "x", 10⟩),
              ((7, 5), ⟨7, 5, "x", 10⟩), ((7, 6), ⟨7, 6, "x", 10⟩),
              ((0, 9), ⟨0, 9, "b", 10⟩), ((2, 9), ⟨2, 9, "b", 10⟩)],
    teams := ["y", "x", "b"],
    scores := [("y", 3), ("x", 9), ("b", 2)] }

/-- The Pass A result on `exSolo`, written out: the lone cell ages to 4 and
its eight in-bounds neighbours are collected as candidates. -/
def exSoloA : AState :=
  { newCells := [((5, 5), ⟨5, 5, "x", 4⟩)],
    deadCells := [(4, 4), (5, 4), (6, 4), (4, 5), (6, 5), (4, 6), (5, 6), (6, 6)],
    scores := [("x", 1)], teams := ["x"] }

/-! ## Claim theorems -/

/-- C1: the score/cell-count invariant is broken by the round update.  In
`exAge` the only cell of team `"x"` dies of old age; `_update_cells` drops
it without decrementing the team's score, so after the round the score is
still 1 while the team has 0 cells (and the registry still lists the
team). -/
theorem old_age_death_breaks_score_invariant :
    ∃ s1, updateCells defaultProps exAge = .ok s1 ∧
      s1.cells = [] ∧
      getScore s1.scores "x" = 1 ∧
      countTeamCells s1.cells "x" = 0 ∧
      s1.teams = ["x"] :=
  ⟨_, rfl, rfl, rfl, rfl, rfl⟩

set_option maxRecDepth 40000 in
unseal List.merge List.mergeSort in
/-- C2: the claimed registry discipline — a team whose score reaches zero
is removed from the registry and cannot be recreated by a revival — does
not hold.  From the loadable state `exPhantom`, round 1 erases team `"y"`
from the registry (its three cells are killed) yet Pass B revives a `"y"`
cell at `(5,5)` from the snapshot tally and increments its score back to
1 without re-registering the team; when that phantom cell is killed in
round 2 the score reaches 0 again and `del self.teams[cell.team.view]`
raises `KeyError` on the already-absent key instead of removing it. -/
theorem killing_phantom_team_raises_keyError :
    ∃ s1, updateCells phantomProps exPhantom = .ok s1 ∧
      s1.teams = ["x", "b"] ∧
      alGet s1.cells (5, 5) = some ⟨5, 5, "y", 10⟩ ∧
      getScore s1.scores "y" = 1 ∧
      updateCells phantomProps s1 = .error .keyError :=
  ⟨_, rfl, by decide, by decide, by decide, rfl⟩

/-- C4: when exactly one team remains after a round the loop does stop,
but the winner is not reported: `winner = self.teams.values()[0]`
subscripts a `dict_values` object, which raises `TypeError` in Python 3.
Starting `exSolo` (a single team) reaches that branch after round 1. -/
theorem start_single_team_raises :
    start defaultProps exSolo = .error .typeError := rfl

/-- C7: the round loop is not total.  From the valid two-team state
`exWipe`, round 1 eliminates team `"y"` (three `"x"` enemies meet
`to-kill = 3`), one team remains, and the winner lookup
`self.teams.values()[0]` raises `TypeError` instead of succeeding. -/
theorem start_crashes_after_team_elimination :
    (∃ s1, updateCells defaultProps exWipe = .ok s1 ∧ s1.teams = ["x"]) ∧
    start defaultProps exWipe = .error .typeError :=
  ⟨⟨_, rfl, rfl⟩, rfl⟩

/-- C8 counterexample: loading `width:50` followed by the unknown property
`bogus:1` raises, but the load is partially applied — `width` keeps the
value 50 taken from the failing file instead of the pre-load default
30. -/
theorem loadConfig_partially_applies :
    (loadConfig defaultProps [("width", "50"), ("bogus", "1")]).2 = some .valueError ∧
    (loadConfig defaultProps [("width", "50"), ("bogus", "1")]).1.width = 50 ∧
    defaultProps.width = 30 :=
  ⟨by decide, by decide, rfl⟩

/-- C9 counterexample: the row `"2x"` covers 2 cells although the declared
width is 30, yet `load_cells` accepts it without any error and loads
exactly two `"x"` cells. -/
theorem loadCells_accepts_short_row :
    loadCells defaultProps.deathAge [['2', 'x']] =
      .ok { cells := [((0, 0), ⟨0, 0, "x", 4⟩), ((1, 0), ⟨1, 0, "x", 4⟩)],
            teams := ["x"], scores := [("x", 2)] } ∧
    (2 : Int) < defaultProps.width :=
  ⟨rfl, by decide⟩

set_option maxRecDepth 40000 in
unseal List.merge List.mergeSort in
/-- C10: the revival tie-break reads live scores.  In `exOrder` the teams
start with equal scores and candidate `(5,5)` is tally-tied 2–2; in the
candidate set's insertion order the unique-control revival at `(1,1)` is
processed first, its score increment breaks the tie and `(5,5)` is
revived, while processing `(5,5)` first (a permutation of the same
candidate set) leaves it dead.  In `exKill` the pre-round scores are tied
and no earlier Pass B revival is needed: the Pass A enemy-kill decrement
alone breaks the tie, so `(5,5)` is revived even though the pre-round
snapshot scores are equal. -/
theorem passB_tie_break_is_order_dependent :
    (∃ a, passA defaultProps exOrder = .ok a ∧
      a.deadCells.contains ((5, 5) : Pos) = true ∧
      exOrderSwapped.isPerm a.deadCells = true) ∧
    (∃ s1, updateCells defaultProps exOrder = .ok s1 ∧
      alGet s1.cells (5, 5) = some ⟨5, 5, "a", 4⟩) ∧
    (∃ s2, updateCellsWith defaultProps exOrder exOrderSwapped = .ok s2 ∧
      alGet s2.cells (5, 5) = none) ∧
    (getScore exKill.scores "a" = getScore exKill.scores "b" ∧
     ∃ a3, passA defaultProps exKill = .ok a3 ∧ getScore a3.scores "b" = 4) ∧
    (∃ s3, updateCells defaultProps exKill = .ok s3 ∧
      alGet s3.cells (5, 5) = some ⟨5, 5, "a", 4⟩) :=
  ⟨⟨_, rfl, by decide, by decide⟩, ⟨_, rfl, by decide⟩, ⟨_, rfl, by decide⟩,
   ⟨rfl, _, rfl, by decide⟩, ⟨_, rfl, by decide⟩⟩

/-- C8 (amended): loading raises exactly when `set_property` rejects some
line (unknown name, out-of-range or ill-typed value, malformed `output`),
but the load is not atomic: on failure the properties equal the result of
applying exactly the lines before the first failing line, and that line
fails on them; only on an error-free file do the properties equal the
all-or-nothing application of every line. -/
theorem loadConfig_applies_longest_ok_prefix (props : Props)
    (lines : List (String × String)) :
    ((loadConfig props lines).2 = none ∧
      applyAll props lines = .ok (loadConfig props lines).1) ∨
    (∃ e pre line post, lines = pre ++ line :: post ∧
      applyAll props pre = .ok (loadConfig props lines).1 ∧
      setProperty (loadConfig props lines).1 line.1 line.2 = .error e ∧
      (loadConfig props lines).2 = some e) := by
  induction lines generalizing props with
  | nil => exact Or.inl ⟨rfl, rfl⟩
  | cons l rest ih =>
    rcases l with ⟨k, v⟩
    cases hsp : setProperty props k v with
    | ok p =>
      have hl : loadConfig props ((k, v) :: rest) = loadConfig p rest := by
        simp [loadConfig, hsp]
      have ha : applyAll props ((k, v) :: rest) = applyAll p rest := by
        simp [applyAll, hsp]
      rcases ih p with ⟨h1, h2⟩ | ⟨e, pre, line, post, hsplit, hpre, hline, herr⟩
      · exact Or.inl ⟨by rw [hl]; exact h1, by rw [hl, ha]; exact h2⟩
      · refine Or.inr ⟨e, (k, v) :: pre, line, post, by simp [hsplit], ?_, ?_, ?_⟩
        · rw [hl]
          simpa [applyAll, hsp] using hpre
        · rw [hl]; exact hline
        · rw [hl]; exact herr
    | error e =>
      have hl : loadConfig props ((k, v) :: rest) = (props, some e) := by
        simp [loadConfig, hsp]
      exact Or.inr ⟨e, [], (k, v), rest, rfl, by rw [hl]; rfl, by rw [hl]; exact hsp,
        by rw [hl]⟩

theorem applyToken_never_raises (deathAge y : Int) (st : GameState)
    (amount : Nat) (value : String) (x : Int) :
    ∃ r, applyToken deathAge y st amount value x = .ok r := by
  unfold applyToken
  simp only [pyStrIntEq, Bool.false_and, Bool.false_eq_true, if_false]
  split
  · exact ⟨_, rfl⟩
  · exact ⟨_, rfl⟩

theorem parseRow_never_raises (deathAge y : Int) :
    ∀ (chars : List Char) (acc : Option Nat) (x : Int) (st : GameState),
      ∃ st1, parseRow deathAge y chars acc x st = .ok st1 := by
  intro chars
  induction chars with
  | nil =>
    intro acc x st
    cases acc with
    | none => exact ⟨st, rfl⟩
    | some amount =>
      obtain ⟨r, hr⟩ := applyToken_never_raises deathAge y st amount "" x
      exact ⟨r.1, by simp [parseRow, hr]⟩
  | cons c cs ih =>
    intro acc x st
    cases acc with
    | none =>
      by_cases hc : c.isDigit
      · simpa [parseRow, hc] using ih (some (c.toNat - 48)) x st
      · exact ⟨st, by simp [parseRow, hc]⟩
    | some amount =>
      by_cases hc : c.isDigit
      · simpa [parseRow, hc] using ih (some (amount * 10 + (c.toNat - 48))) x st
      · obtain ⟨r, hr⟩ := applyToken_never_raises deathAge y st amount
          (String.singleton c) x
        obtain ⟨st1, h1⟩ := ih none r.2 r.1
        exact ⟨st1, by simp [parseRow, hc, hr, h1]⟩

theorem mem_neighbourOffsets (d : Int × Int) :
    d ∈ neighbourOffsets ↔
      d.1 ∈ ([-1, 0, 1] : List Int) ∧ d.2 ∈ ([-1, 0, 1] : List Int) ∧
        ¬(d.1 = 0 ∧ d.2 = 0) := by
  rcases d with ⟨dx, dy⟩
  simp [neighbourOffsets, Prod.ext_iff]
  omega

theorem mem_neighbourPositions (w h x y : Int) (p : Pos) :
    p ∈ neighbourPositions w h x y ↔
      isNeighbourPos x y p ∧ inBounds w h p = true := by
  unfold neighbourPositions
  rw [List.mem_filter, List.mem_map]
  constructor
  · rintro ⟨⟨d, hd, rfl⟩, hb⟩
    rw [mem_neighbourOffsets] at hd
    exact ⟨⟨d.1, d.2, hd.1, hd.2.1, hd.2.2, rfl⟩, hb⟩
  · rintro ⟨⟨dx, dy, h1, h2, h3, rfl⟩, hb⟩
    exact ⟨⟨(dx, dy), (mem_neighbourOffsets _).2 ⟨h1, h2, h3⟩, rfl⟩, hb⟩

theorem length_filterMap_add_length_filter {α β : Type} (f : α → Option β)
    (l : List α) :
    (l.filterMap f).length + (l.filter (fun a => (f a).isNone)).length = l.length := by
  induction l with
  | nil => rfl
  | cons a l ih =>
    cases h : f a with
    | none =>
      simp only [List.filterMap_cons, h, List.filter_cons, Option.isNone_none]
      simp only [if_pos trivial]
      simp only [List.length_cons]
      omega
    | some b =>
      simp only [List.filterMap_cons, h, List.filter_cons, Option.isNone_some]
      simp
      omega

theorem corner_positions (w h : Int) (hw : 2 ≤ w) (hh : 2 ≤ h) :
    neighbourPositions w h 0 0 = [(1, 0), (0, 1), (1, 1)] := by
  have hw0 : (0:Int) < w := by omega
  have hw1 : (1:Int) < w := by omega
  have hh0 : (0:Int) < h := by omega
  have hh1 : (1:Int) < h := by omega
  simp [neighbourPositions, neighbourOffsets, inBounds, hw0, hw1, hh0, hh1]

/-- C6: the neighbourhood query returns exactly the in-bounds offset
positions — a dead position is returned iff it is an offset neighbour,
in bounds and absent from the Cell Store, an alive cell is returned iff it
is stored at such a position that is a key of the Cell Store — and on a
grid of width and height at least 2 the corner `(0,0)` yields exactly 3
neighbour positions in total. -/
theorem getNeighbours_splits_bounded_neighbourhood (w h : Int)
    (cells : List (Pos × Cell)) (x y : Int) (hw : 2 ≤ w) (hh : 2 ≤ h) :
    (∀ p : Pos, p ∈ (getNeighbours w h cells x y).2 ↔
        isNeighbourPos x y p ∧ inBounds w h p = true ∧ alGet cells p = none) ∧
    (∀ c : Cell, c ∈ (getNeighbours w h cells x y).1 ↔
        ∃ p : Pos, isNeighbourPos x y p ∧ inBounds w h p = true ∧
          alGet cells p = some c) ∧
    (getNeighbours w h cells 0 0).1.length +
      (getNeighbours w h cells 0 0).2.length = 3 := by
  refine ⟨?_, ?_, ?_⟩
  · intro p
    unfold getNeighbours
    dsimp only
    rw [List.mem_filter, mem_neighbourPositions, Option.isNone_iff_eq_none]
    tauto
  · intro c
    unfold getNeighbours
    dsimp only
    rw [List.mem_filterMap]
    constructor
    · rintro ⟨p, hp, hf⟩
      obtain ⟨h1, h2⟩ := (mem_neighbourPositions w h x y p).1 hp
      exact ⟨p, h1, h2, hf⟩
    · rintro ⟨p, h1, h2, h3⟩
      exact ⟨p, (mem_neighbourPositions w h x y p).2 ⟨h1, h2⟩, h3⟩
  · unfold getNeighbours
    dsimp only
    rw [length_filterMap_add_length_filter, corner_positions w h hw hh]
    rfl

/-- Witness for C6 at the concrete grid 10 × 10. -/
theorem getNeighbours_splits_bounded_neighbourhood_witness :
    2 ≤ (10 : Int) ∧
    (getNeighbours 10 10 [] 0 0).1.length +
      (getNeighbours 10 10 [] 0 0).2.length = 3 :=
  ⟨by decide,
   (getNeighbours_splits_bounded_neighbourhood 10 10 [] 3 4 (by decide) (by decide)).2.2⟩

/-- C9 (amended): `load_cells` accepts every row regardless of the declared
width (the parse consumes `<count><symbol>` tokens until a token lacks a
leading digit run and never compares coverage with `width`), and it raises
on no input at all: the only `raise` in the row loop sits under the guard
`value == -1 and amount != -1`, and a `str` never equals an `int` in
Python 3, so the guard is dead code. -/
theorem loadCells_never_raises (deathAge : Int) (rows : List (List Char)) :
    ∃ st, loadCells deathAge rows = .ok st := by
  suffices h : ∀ (rows : List (List Char)) (y : Int) (st : GameState),
      ∃ st1, loadCellsFrom deathAge rows y st = .ok st1 by
    exact h rows 0 _
  intro rows
  induction rows with
  | nil => exact fun y st => ⟨st, rfl⟩
  | cons row rest ih =>
    intro y st
    obtain ⟨st1, h1⟩ := parseRow_never_raises deathAge y row none 0 st
    obtain ⟨st2, h2⟩ := ih (y + 1) st1
    exact ⟨st2, by simp [loadCellsFrom, h1, h2]⟩

theorem alGet_map_replace {κ ν : Type} [BEq κ] [LawfulBEq κ]
    (l : List (κ × ν)) (k k2 : κ) (v : ν) :
    alGet (l.map (fun e => if e.1 == k then (k, v) else e)) k2 =
      if k == k2 then (l.find? (fun e => e.1 == k)).map (fun _ => v)
      else alGet l k2 := by
  induction l with
  | nil => cases h : k == k2 <;> simp [alGet, h]
  | cons e l ih =>
    cases h1 : (e.1 == k) with
    | true =>
      cases h2 : (k == k2) with
      | true => simp [alGet, List.find?_cons, h1, h2]
      | false =>
        have he2 : (e.1 == k2) = false := by
          have h1x : e.1 = k := by rwa [beq_iff_eq] at h1
          have h2x : k ≠ k2 := by rwa [beq_eq_false_iff_ne] at h2
          rw [beq_eq_false_iff_ne, h1x]
          exact h2x
        simp [alGet, List.find?_cons, h1, h2, he2] at ih ⊢
        exact ih
    | false =>
      cases h2 : (e.1 == k2) with
      | true =>
        have hk2 : (k == k2) = false := by
          have h2x : e.1 = k2 := by rwa [beq_iff_eq] at h2
          have h1x : e.1 ≠ k := by rwa [beq_eq_false_iff_ne] at h1
          rw [beq_eq_false_iff_ne]
          intro h
          exact h1x (by rw [h2x, ← h])
        simp [alGet, List.find?_cons, h1, h2, hk2]
      | false =>
        simp [alGet, List.find?_cons, h1, h2] at ih ⊢
        exact ih
theorem alGet_append_single {κ ν : Type} [BEq κ] [LawfulBEq κ]
    (l : List (κ × ν)) (k k2 : κ) (v : ν)
    (hnone : l.find? (fun e => e.1 == k) = none) :
    alGet (l ++ [(k, v)]) k2 = if k == k2 then some v else alGet l k2 := by
  unfold alGet
  rw [List.find?_append]
  cases h2 : (k == k2) with
  | true =>
    have hk : k = k2 := by rwa [beq_iff_eq] at h2
    subst hk
    rw [hnone]
    simp [List.find?_cons, h2]
  | false =>
    have : List.find? (fun e => e.1 == k2) [(k, v)] = none := by
      simp [List.find?_cons, h2]
    rw [this]
    simp only [h2, Bool.false_eq_true, if_false]
    cases l.find? (fun e => e.1 == k2) <;> rfl

theorem alGet_alPut {κ ν : Type} [BEq κ] [LawfulBEq κ]
    (l : List (κ × ν)) (k k2 : κ) (v : ν) :
    alGet (alPut l k v) k2 = if k == k2 then some v else alGet l k2 := by
  unfold alPut
  by_cases hf : (l.find? (fun e => e.1 == k)).isSome
  · rw [if_pos hf, alGet_map_replace]
    obtain ⟨e, he⟩ := Option.isSome_iff_exists.1 hf
    rw [he]
    rfl
  · rw [if_neg hf]
    exact alGet_append_single l k k2 v (Option.not_isSome_iff_eq_none.1 hf)
theorem alPut_keys_nodup {κ ν : Type} [BEq κ] [LawfulBEq κ]
    (l : List (κ × ν)) (k : κ) (v : ν)
    (h : (l.map (fun e => e.1)).Nodup) :
    ((alPut l k v).map (fun e => e.1)).Nodup := by
  unfold alPut
  by_cases hf : (l.find? (fun e => e.1 == k)).isSome
  · rw [if_pos hf]
    have he : (l.map (fun e => if e.1 == k then (k, v) else e)).map (fun e => e.1)
        = l.map (fun e => e.1) := by
      rw [List.map_map]
      apply List.map_congr_left
      intro e _
      by_cases h1 : (e.1 == k) = true
      · simp only [Function.comp, h1, if_true]
        exact (beq_iff_eq.1 h1).symm
      · simp [Function.comp, h1]
    rw [he]
    exact h
  · rw [if_neg hf]
    rw [List.map_append]
    rw [List.nodup_append]
    refine ⟨h, List.nodup_singleton k, ?_⟩
    intro a ha hb
    simp only [List.map_cons, List.map_nil, List.mem_singleton] at hb
    subst hb
    rw [Option.not_isSome_iff_eq_none, List.find?_eq_none] at hf
    obtain ⟨e, he, hek⟩ := List.mem_map.1 ha
    exact absurd (by rw [beq_iff_eq]; exact hek) (hf e he)

theorem mem_addDead (acc : List Pos) (q p : Pos) (h : p ∈ addDead acc q) :
    p ∈ acc ∨ p = q := by
  unfold addDead at h
  split at h
  · exact Or.inl h
  · rcases List.mem_append.1 h with h1 | h1
    · exact Or.inl h1
    · exact Or.inr (List.mem_singleton.1 h1)

theorem mem_foldl_addDead (ds : List Pos) (acc : List Pos) (p : Pos)
    (h : p ∈ ds.foldl addDead acc) : p ∈ acc ∨ p ∈ ds := by
  induction ds generalizing acc with
  | nil => exact Or.inl h
  | cons d ds ih =>
    rcases ih (addDead acc d) h with h1 | h1
    · rcases mem_addDead acc d p h1 with h2 | h2
      · exact Or.inl h2
      · exact Or.inr (by rw [h2]; exact List.mem_cons_self d ds)
    · exact Or.inr (List.mem_cons_of_mem d h1)
theorem mem_getNeighbours_dead (w h : Int) (cells : List (Pos × Cell))
    (x y : Int) (p : Pos) (hp : p ∈ (getNeighbours w h cells x y).2) :
    alGet cells p = none := by
  unfold getNeighbours at hp
  dsimp only at hp
  have := (List.mem_filter.1 hp).2
  exact Option.isNone_iff_eq_none.1 this

theorem passAStep_deadCells_mem (props : Props) (snap : List (Pos × Cell))
    (st : AState) (cell : Cell) (st2 : AState) (p : Pos)
    (hok : passAStep props snap st cell = .ok st2)
    (h : p ∈ st2.deadCells) :
    p ∈ st.deadCells ∨ alGet snap p = none := by
  unfold passAStep at hok
  dsimp only at hok
  split_ifs at hok
  all_goals first
    | exact Except.noConfusion hok
    | (injection hok with hok; subst hok; first
        | exact Or.inl h
        | exact (mem_foldl_addDead _ _ _ h).imp (fun h1 => h1)
            (fun h1 => mem_getNeighbours_dead _ _ _ _ _ _ h1))

theorem passA_deadCells_dead (props : Props) (s : GameState) (a : AState)
    (ha : passA props s = .ok a) (p : Pos)
    (h : p ∈ a.deadCells) : alGet s.cells p = none := by
  unfold passA at ha
  suffices hgen : ∀ (cells : List (Pos × Cell)) (st0 : AState),
      (∀ q ∈ st0.deadCells, alGet s.cells q = none) →
      ∀ (a2 : AState),
        cells.foldlM (fun st e => passAStep props s.cells st e.2) st0 = .ok a2 →
      ∀ q ∈ a2.deadCells, alGet s.cells q = none by
    exact hgen s.cells _ (by intro q hq; simp at hq) a ha p h
  intro cells
  induction cells with
  | nil =>
    intro st0 h0 a2 ha2 q hq
    rw [List.foldlM_nil] at ha2
    injection ha2 with ha2
    subst ha2
    exact h0 q hq
  | cons e rest ih =>
    intro st0 h0 a2 ha2 q hq
    rw [List.foldlM_cons] at ha2
    cases hstep : passAStep props s.cells st0 e.2 with
    | error err =>
      rw [hstep] at ha2
      exact Except.noConfusion ha2
    | ok st1 =>
      rw [hstep] at ha2
      refine ih st1 ?_ a2 ha2 q hq
      intro r hr
      rcases passAStep_deadCells_mem props s.cells st0 e.2 st1 r hstep hr with h1 | h1
      · exact h0 r h1
      · exact h1
theorem passBStep_newCells_eq_or_put (props : Props) (snap : List (Pos × Cell))
    (st : BState) (q : Pos) :
    (passBStep props snap st q).newCells = st.newCells ∨
    ∃ c, (passBStep props snap st q).newCells = alPut st.newCells q c := by
  unfold passBStep
  dsimp only
  split
  · exact Or.inl rfl
  · split
    · exact Or.inl rfl
    · exact Or.inr ⟨_, rfl⟩

theorem alGet_passBStep_ne (props : Props) (snap : List (Pos × Cell))
    (st : BState) (q p : Pos) (h : p ≠ q) :
    alGet (passBStep props snap st q).newCells p = alGet st.newCells p := by
  rcases passBStep_newCells_eq_or_put props snap st q with he | ⟨c, he⟩
  · rw [he]
  · rw [he, alGet_alPut]
    have : (q == p) = false := by
      rw [beq_eq_false_iff_ne]
      exact fun hq => h hq.symm
    rw [this]
    simp

theorem alGet_passB_not_mem (props : Props) (snap : List (Pos × Cell))
    (order : List Pos) (st : BState) (p : Pos) (h : p ∉ order) :
    alGet (passB props snap st order).newCells p = alGet st.newCells p := by
  induction order generalizing st with
  | nil => rfl
  | cons q os ih =>
    have hq : p ≠ q := fun he => h (he ▸ List.mem_cons_self q os)
    have hos : p ∉ os := fun hm => h (List.mem_cons_of_mem q hm)
    unfold passB at ih ⊢
    rw [List.foldl_cons, ih _ hos, alGet_passBStep_ne props snap st q p hq]

theorem passAStep_newCells_eq_or_put (props : Props) (snap : List (Pos × Cell))
    (st : AState) (cell : Cell) (st2 : AState)
    (hok : passAStep props snap st cell = .ok st2) :
    st2.newCells = st.newCells ∨
    ∃ q c, st2.newCells = alPut st.newCells q c := by
  unfold passAStep at hok
  dsimp only at hok
  split_ifs at hok
  all_goals first
    | exact Except.noConfusion hok
    | (injection hok with hok; subst hok; first
        | exact Or.inl rfl
        | exact Or.inr ⟨_, _, rfl⟩)

theorem keysNodup_passAStep (props : Props) (snap : List (Pos × Cell))
    (st : AState) (cell : Cell) (st2 : AState)
    (hok : passAStep props snap st cell = .ok st2)
    (h : keysNodup st.newCells) :
    keysNodup st2.newCells := by
  rcases passAStep_newCells_eq_or_put props snap st cell st2 hok with he | ⟨q, c, he⟩
  · rw [he]; exact h
  · rw [he]; exact alPut_keys_nodup _ _ _ h

theorem keysNodup_passBStep (props : Props) (snap : List (Pos × Cell))
    (st : BState) (q : Pos) (h : keysNodup st.newCells) :
    keysNodup (passBStep props snap st q).newCells := by
  rcases passBStep_newCells_eq_or_put props snap st q with he | ⟨c, he⟩
  · rw [he]; exact h
  · rw [he]; exact alPut_keys_nodup _ _ _ h

theorem keysNodup_passB (props : Props) (snap : List (Pos × Cell))
    (order : List Pos) (st : BState) (h : keysNodup st.newCells) :
    keysNodup (passB props snap st order).newCells := by
  induction order generalizing st with
  | nil => exact h
  | cons q os ih =>
    unfold passB at ih ⊢
    rw [List.foldl_cons]
    exact ih _ (keysNodup_passBStep props snap st q h)

theorem keysNodup_passA (props : Props) (s : GameState) (a : AState)
    (ha : passA props s = .ok a) :
    keysNodup a.newCells := by
  unfold passA at ha
  suffices hgen : ∀ (cells : List (Pos × Cell)) (st0 : AState),
      keysNodup st0.newCells →
      ∀ (a2 : AState),
        cells.foldlM (fun st e => passAStep props s.cells st e.2) st0 = .ok a2 →
        keysNodup a2.newCells by
    exact hgen s.cells _ (by simp [keysNodup]) a ha
  intro cells
  induction cells with
  | nil =>
    intro st0 h0 a2 ha2
    rw [List.foldlM_nil] at ha2
    injection ha2 with ha2
    subst ha2
    exact h0
  | cons e rest ih =>
    intro st0 h0 a2 ha2
    rw [List.foldlM_cons] at ha2
    cases hstep : passAStep props s.cells st0 e.2 with
    | error err =>
      rw [hstep] at ha2
      exact Except.noConfusion ha2
    | ok st1 =>
      rw [hstep] at ha2
      exact ih st1 (keysNodup_passAStep props s.cells st0 e.2 st1 hstep h0) a2 ha2
/-- C5: every revival candidate collected in Pass A is unoccupied in the
pre-round snapshot; Pass B (over any processing order drawn from the
candidate set) leaves every snapshot-occupied position — in particular
every position dropped in Pass A — exactly as Pass A left it; and the next
generation's Cell Store keeps at most one cell per position. -/
theorem passB_inserts_only_snapshot_dead_positions (props : Props)
    (s : GameState) (a : AState) (ha : passA props s = .ok a)
    (order : List Pos)
    (horder : ∀ q ∈ order, q ∈ a.deadCells) :
    (∀ p ∈ a.deadCells, alGet s.cells p = none) ∧
    (∀ p : Pos, alGet s.cells p ≠ none →
      ∃ s1, updateCellsWith props s order = .ok s1 ∧
        alGet s1.cells p = alGet a.newCells p) ∧
    (∀ s1, updateCellsWith props s order = .ok s1 → keysNodup s1.cells) := by
  have hup : updateCellsWith props s order =
      .ok { cells := (passB props s.cells
              { newCells := a.newCells, scores := a.scores } order).newCells,
            teams := a.teams,
            scores := (passB props s.cells
              { newCells := a.newCells, scores := a.scores } order).scores } := by
    unfold updateCellsWith
    rw [ha]
  refine ⟨fun p hp => passA_deadCells_dead props s a ha p hp, ?_, ?_⟩
  · intro p hocc
    have hpo : p ∉ order := fun hin =>
      hocc (passA_deadCells_dead props s a ha p (horder p hin))
    exact ⟨_, hup, alGet_passB_not_mem props s.cells order _ p hpo⟩
  · intro s1 hs1
    rw [hup] at hs1
    injection hs1 with hs1
    subst hs1
    exact keysNodup_passB props s.cells order _ (keysNodup_passA props s a ha)

/-- Witness for C5 on the concrete state `exSolo`, whose Pass A result is
`exSoloA`, with the candidate set processed in insertion order. -/
theorem passB_inserts_only_snapshot_dead_positions_witness :
    passA defaultProps exSolo = .ok exSoloA ∧
    ((∀ p ∈ exSoloA.deadCells, alGet exSolo.cells p = none) ∧
     (∀ p : Pos, alGet exSolo.cells p ≠ none →
       ∃ s1, updateCellsWith defaultProps exSolo exSoloA.deadCells = .ok s1 ∧
         alGet s1.cells p = alGet exSoloA.newCells p) ∧
     (∀ s1, updateCellsWith defaultProps exSolo exSoloA.deadCells = .ok s1 →
       keysNodup s1.cells)) :=
  ⟨rfl,
   passB_inserts_only_snapshot_dead_positions defaultProps exSolo exSoloA
     rfl exSoloA.deadCells (fun _ hq => hq)⟩

theorem mergeSort_desc_sorted {α β : Type} [LinearOrder β] (key : α → β)
    (l : List α) :
    (l.mergeSort (fun a b => decide (key b ≤ key a))).Pairwise
      (fun a b => key b ≤ key a) := by
  have h := @List.sorted_mergeSort α (fun a b => decide (key b ≤ key a))
    (fun a b c h1 h2 => by
      simp only [decide_eq_true_eq] at h1 h2 ⊢
      exact le_trans h2 h1)
    (fun a b => by
      simp only [Bool.or_eq_true, decide_eq_true_eq]
      exact le_total (key b) (key a))
    l
  exact h.imp (fun hab => by simpa using hab)

theorem takeWhile_eq_filter_of_pairwise {α : Type} (p : α → Bool) (l : List α)
    (hp : l.Pairwise (fun a b => p b = true → p a = true)) :
    l.takeWhile p = l.filter p := by
  induction l with
  | nil => rfl
  | cons a l ih =>
    rcases List.pairwise_cons.1 hp with ⟨ha, hl⟩
    by_cases hpa : p a = true
    · rw [List.takeWhile_cons, List.filter_cons]
      simp only [hpa, if_true, ih hl]
    · rw [List.takeWhile_cons, List.filter_cons]
      have hnil : l.filter p = [] :=
        List.filter_eq_nil_iff.2 (fun b hb hpb => hpa (ha b hb hpb))
      simp [hpa, hnil]

theorem eq_singleton_of_nodup_mem_iff {α : Type} (l : List α) (a : α)
    (hnd : l.Nodup) (h : ∀ x, x ∈ l ↔ x = a) : l = [a] := by
  cases l with
  | nil => exact absurd ((h a).2 rfl) (List.not_mem_nil a)
  | cons b l2 =>
    have hb : b = a := (h b).1 (List.mem_cons_self _ _)
    subst hb
    cases l2 with
    | nil => rfl
    | cons c l3 =>
      have hc : c = b := (h c).1 (List.mem_cons_of_mem _ (List.mem_cons_self _ _))
      subst hc
      exact absurd (List.mem_cons_self _ _) (List.nodup_cons.1 hnd).1

theorem filter_eq_singleton_of_nodup {α : Type} (l : List α) (p : α → Bool)
    (a : α) (hnd : l.Nodup) (ha : a ∈ l)
    (h : ∀ x ∈ l, (p x = true ↔ x = a)) : l.filter p = [a] := by
  apply eq_singleton_of_nodup_mem_iff _ _ (hnd.filter p)
  intro x
  rw [List.mem_filter]
  constructor
  · rintro ⟨hx, hpx⟩
    exact (h x hx).1 hpx
  · intro hxa
    subst hxa
    exact ⟨ha, (h x ha).2 rfl⟩

theorem le_foldl_max (l : List Nat) (a : Nat) :
    a ≤ l.foldl max a ∧ ∀ x ∈ l, x ≤ l.foldl max a := by
  induction l generalizing a with
  | nil => exact ⟨Nat.le_refl a, by simp⟩
  | cons y l ih =>
    rcases ih (max a y) with ⟨h1, h2⟩
    rw [List.foldl_cons]
    refine ⟨Nat.le_trans (Nat.le_max_left a y) h1, ?_⟩
    intro x hx
    rcases List.mem_cons.1 hx with rfl | hx2
    · exact Nat.le_trans (Nat.le_max_right a x) h1
    · exact h2 x hx2

theorem foldl_max_le (l : List Nat) :
    ∀ (a m : Nat), a ≤ m → (∀ x ∈ l, x ≤ m) → l.foldl max a ≤ m := by
  induction l with
  | nil => exact fun a m h _ => h
  | cons y l ih =>
    intro a m ha hl
    rw [List.foldl_cons]
    exact ih _ m (Nat.max_le.2 ⟨ha, hl y (List.mem_cons_self y l)⟩)
      (fun x hx => hl x (List.mem_cons_of_mem _ hx))

theorem foldl_max_eq (l : List Nat) (m : Nat) (hm : m ∈ l)
    (hle : ∀ x ∈ l, x ≤ m) : l.foldl max 0 = m :=
  Nat.le_antisymm (foldl_max_le l 0 m (Nat.zero_le m) hle)
    ((le_foldl_max l 0).2 m hm)

theorem mem_iff_alGet {κ ν : Type} [BEq κ] [LawfulBEq κ]
    (l : List (κ × ν)) (hnd : (l.map (fun e => e.1)).Nodup) (k : κ) (v : ν) :
    (k, v) ∈ l ↔ alGet l k = some v := by
  induction l with
  | nil => simp [alGet]
  | cons e l ih =>
    rw [List.map_cons, List.nodup_cons] at hnd
    rcases hnd with ⟨hknot, hnd2⟩
    constructor
    · intro hm
      rcases List.mem_cons.1 hm with he | hm2
      · rw [← he]
        simp [alGet, List.find?_cons]
      · have hk : k ∈ l.map (fun e => e.1) := List.mem_map.2 ⟨(k, v), hm2, rfl⟩
        have hek : (e.1 == k) = false := by
          rw [beq_eq_false_iff_ne]
          intro h
          exact hknot (h ▸ hk)
        unfold alGet
        rw [List.find?_cons, hek]
        exact (ih hnd2).1 hm2
    · intro hg
      unfold alGet at hg
      rw [List.find?_cons] at hg
      by_cases he : (e.1 == k) = true
      · rw [he] at hg
        simp at hg
        have h1 : e.1 = k := beq_iff_eq.1 he
        have : e = (k, v) := Prod.ext h1 hg
        rw [← this]
        exact List.mem_cons_self e l
      · rw [Bool.not_eq_true] at he
        rw [he] at hg
        exact List.mem_cons_of_mem e ((ih hnd2).2 hg)

theorem alGet_foldl_tally (l : List Cell) :
    ∀ (acc : List (String × Nat)) (t : String),
      alGet (l.foldl (fun acc c => alPut acc c.team ((alGet acc c.team).getD 0 + 1)) acc) t =
        match alGet acc t with
        | some n => some (n + teamTally l t)
        | none => if teamTally l t = 0 then none else some (teamTally l t) := by
  induction l with
  | nil =>
    intro acc t
    cases h : alGet acc t <;> simp [teamTally, h]
  | cons c l ih =>
    intro acc t
    rw [List.foldl_cons, ih (alPut acc c.team ((alGet acc c.team).getD 0 + 1)) t,
      alGet_alPut]
    by_cases hct : (c.team == t) = true
    · have hct2 : c.team = t := beq_iff_eq.1 hct
      rw [if_pos hct, hct2]
      have htt : teamTally (c :: l) t = teamTally l t + 1 := by
        simp [teamTally, List.filter_cons, hct]
      rw [htt]
      cases h : alGet acc t with
      | none =>
        simp only [h, Option.getD_none]
        simp only [Nat.succ_ne_zero, if_false, Nat.add_eq, Nat.zero_add]
        congr 1
        omega
      | some n =>
        simp only [h, Option.getD_some]
        congr 1
        omega
    · rw [if_neg hct]
      have htt : teamTally (c :: l) t = teamTally l t := by
        simp [teamTally, List.filter_cons, hct]
      rw [htt]

theorem alGet_controllersOf (alive : List Cell) (t : String) :
    alGet (controllersOf alive) t =
      if teamTally alive t = 0 then none else some (teamTally alive t) := by
  unfold controllersOf
  rw [alGet_foldl_tally alive [] t]
  simp [alGet]

theorem teamTally_eq_zero_iff (alive : List Cell) (t : String) :
    teamTally alive t = 0 ↔ t ∉ alive.map Cell.team := by
  simp only [teamTally, List.length_eq_zero, List.filter_eq_nil_iff, List.mem_map]
  constructor
  · rintro h ⟨c, hc, rfl⟩
    exact h c hc (by simp)
  · intro h c hc hct
    exact h ⟨c, hc, beq_iff_eq.1 hct⟩

theorem keysNodup_controllersOf (alive : List Cell) :
    ((controllersOf alive).map (fun e => e.1)).Nodup := by
  unfold controllersOf
  suffices hgen : ∀ (l : List Cell) (acc : List (String × Nat)),
      (acc.map (fun e => e.1)).Nodup →
      ((l.foldl (fun acc c => alPut acc c.team ((alGet acc c.team).getD 0 + 1)) acc).map
        (fun e => e.1)).Nodup by
    exact hgen alive [] (by simp)
  intro l
  induction l with
  | nil => exact fun acc h => h
  | cons c l ih =>
    intro acc h
    rw [List.foldl_cons]
    exact ih _ (alPut_keys_nodup _ _ _ h)


theorem passBPick_core (scores : List (String × Int)) (alive : List Cell)
    (controllers : List (String × Nat)) (dominantTeams : List (String × Nat))
    (maxControl : Nat) (highest : List String) (sortedHighest : List String)
    (hc : controllers = controllersOf alive)
    (hd : dominantTeams = controllers.mergeSort (fun a b => decide (b.2 ≤ a.2)))
    (hm : maxControl = (dominantTeams.headD ("", 0)).2)
    (hh : highest = (dominantTeams.takeWhile
        (fun tc => !(decide (tc.2 < maxControl)))).map (·.1))
    (hs : sortedHighest = highest.mergeSort
        (fun a b => decide (getScore scores b ≤ getScore scores a))) :
    pickDominant scores sortedHighest = specController scores alive := by
  by_cases hcnil : controllers = []
  · have hd2 : dominantTeams = [] := by rw [hd, hcnil, List.mergeSort_nil]
    have hh2 : highest = [] := by rw [hh, hd2]; rfl
    have hs2 : sortedHighest = [] := by rw [hs, hh2, List.mergeSort_nil]
    have htd : tiedTeams alive = [] := by
      rw [List.eq_nil_iff_forall_not_mem]
      intro t ht
      unfold tiedTeams at ht
      rcases List.mem_filter.1 ht with ⟨hta, _⟩
      have htne0 : teamTally alive t ≠ 0 := fun h0 =>
        (teamTally_eq_zero_iff alive t).1 h0
          (by unfold aliveTeams at hta; exact List.mem_dedup.1 hta)
      have hg : alGet (controllersOf alive) t = some (teamTally alive t) := by
        rw [alGet_controllersOf, if_neg htne0]
      rw [← hc, hcnil] at hg
      simp [alGet] at hg
    rw [hs2]
    unfold specController
    rw [htd]
    rfl
  · -- general facts about the controllers tally
    have hknd : (controllers.map (fun e => e.1)).Nodup := by
      rw [hc]; exact keysNodup_controllersOf alive
    have hcg : ∀ t, alGet controllers t =
        if teamTally alive t = 0 then none else some (teamTally alive t) := by
      intro t; rw [hc]; exact alGet_controllersOf alive t
    have hmemc : ∀ t n, ((t, n) ∈ controllers ↔ alGet controllers t = some n) :=
      fun t n => mem_iff_alGet controllers hknd t n
    -- the sorted tally list and its head
    have hdp : dominantTeams.Perm controllers := by
      rw [hd]; exact List.mergeSort_perm controllers _
    have hds : dominantTeams.Pairwise (fun a b => b.2 ≤ a.2) := by
      rw [hd]; exact mergeSort_desc_sorted (fun e => e.2) controllers
    have hdne : dominantTeams ≠ [] := by
      intro h
      rw [h] at hdp
      exact hcnil hdp.symm.eq_nil
    rcases hD : dominantTeams with _ | ⟨d0, drest⟩
    · exact absurd hD hdne
    rw [hD] at hdp hds hm hh
    have hmc : maxControl = d0.2 := by rw [hm]; rfl
    have hmax_all : ∀ e ∈ d0 :: drest, e.2 ≤ d0.2 := by
      intro e he
      rcases List.mem_cons.1 he with rfl | he2
      · exact Nat.le_refl _
      · exact (List.pairwise_cons.1 hds).1 e he2
    have hmax_allc : ∀ e ∈ controllers, e.2 ≤ d0.2 :=
      fun e he => hmax_all e (hdp.mem_iff.2 he)
    have hd0c : d0 ∈ controllers := hdp.mem_iff.1 (List.mem_cons_self _ _)
    have hg0 : alGet controllers d0.1 = some d0.2 := (hmemc d0.1 d0.2).1 hd0c
    rw [hcg d0.1] at hg0
    have h0 : teamTally alive d0.1 ≠ 0 := by
      intro h0
      rw [if_pos h0] at hg0
      exact absurd hg0 (by simp)
    rw [if_neg h0] at hg0
    have htal : teamTally alive d0.1 = d0.2 := Option.some_inj.1 hg0
    -- the maximum tally of the spec equals the head tally
    have hmt : maxTallyOf alive = d0.2 := by
      unfold maxTallyOf
      apply foldl_max_eq
      · refine List.mem_map.2 ⟨d0.1, ?_, htal⟩
        unfold aliveTeams
        rw [List.mem_dedup]
        by_contra hnm
        exact h0 ((teamTally_eq_zero_iff alive d0.1).2 hnm)
      · intro x hx
        obtain ⟨t, ht, rfl⟩ := List.mem_map.1 hx
        have htne0 : teamTally alive t ≠ 0 := by
          intro hz
          exact (teamTally_eq_zero_iff alive t).1 hz
            (by unfold aliveTeams at ht; exact List.mem_dedup.1 ht)
        have hmemt : (t, teamTally alive t) ∈ controllers :=
          (hmemc t _).2 (by rw [hcg t, if_neg htne0])
        exact hmax_allc _ hmemt
    -- the tally prefix tied on the maximum equals the filter
    have htwf : (d0 :: drest).takeWhile (fun tc => !(decide (tc.2 < maxControl))) =
        (d0 :: drest).filter (fun tc => !(decide (tc.2 < maxControl))) := by
      apply takeWhile_eq_filter_of_pairwise
      apply List.Pairwise.imp ?_ hds
      intro a b hab hpb
      simp only [Bool.not_eq_true', decide_eq_false_iff_not, Nat.not_lt] at hpb ⊢
      omega
    -- membership in `highest` is membership in the spec's tied set
    have hmemhigh : ∀ t, t ∈ highest ↔ t ∈ tiedTeams alive := by
      intro t
      rw [hh, htwf]
      constructor
      · intro ht
        obtain ⟨e, he, rfl⟩ := List.mem_map.1 ht
        rcases List.mem_filter.1 he with ⟨hed, hep⟩
        have h1 : e.2 ≤ d0.2 := hmax_all e hed
        simp only [Bool.not_eq_true', decide_eq_false_iff_not, Nat.not_lt] at hep
        rw [hmc] at hep
        have he2 : e.2 = d0.2 := Nat.le_antisymm h1 hep
        have hec : e ∈ controllers := hdp.mem_iff.1 hed
        have heg : alGet controllers e.1 = some e.2 := (hmemc e.1 e.2).1 hec
        rw [hcg e.1] at heg
        by_cases hz : teamTally alive e.1 = 0
        · rw [if_pos hz] at heg
          exact absurd heg (by simp)
        · rw [if_neg hz] at heg
          have htal2 : teamTally alive e.1 = e.2 := Option.some_inj.1 heg
          unfold tiedTeams
          rw [List.mem_filter]
          refine ⟨?_, ?_⟩
          · unfold aliveTeams
            rw [List.mem_dedup]
            by_contra hnm
            exact hz ((teamTally_eq_zero_iff _ _).2 hnm)
          · simp only [beq_iff_eq]
            rw [htal2, he2, hmt]
      · intro ht
        unfold tiedTeams at ht
        rcases List.mem_filter.1 ht with ⟨hta, htq⟩
        have htal3 : teamTally alive t = maxTallyOf alive := by
          simpa using htq
        have htne0 : teamTally alive t ≠ 0 := by
          intro hz
          exact (teamTally_eq_zero_iff _ _).1 hz
            (by unfold aliveTeams at hta; exact List.mem_dedup.1 hta)
        have hmemct : (t, teamTally alive t) ∈ controllers :=
          (hmemc t _).2 (by rw [hcg t, if_neg htne0])
        have hmemd : (t, teamTally alive t) ∈ d0 :: drest := hdp.mem_iff.2 hmemct
        apply List.mem_map.2
        refine ⟨(t, teamTally alive t), List.mem_filter.2 ⟨hmemd, ?_⟩, rfl⟩
        simp only [Bool.not_eq_true', decide_eq_false_iff_not, Nat.not_lt]
        rw [hmc, htal3, hmt]
    have hndhigh : highest.Nodup := by
      rw [hh, htwf]
      have h1 : ((d0 :: drest).map (fun e => e.1)).Nodup :=
        (hdp.map (fun e => e.1)).nodup_iff.2 hknd
      exact List.Sublist.nodup
        (List.Sublist.map (fun (e : String × Nat) => e.1)
          (List.filter_sublist (d0 :: drest))) h1
    -- the score-sorted tied list
    have hsp : sortedHighest.Perm highest := by
      rw [hs]; exact List.mergeSort_perm highest _
    have hss : sortedHighest.Pairwise
        (fun a b => getScore scores b ≤ getScore scores a) := by
      rw [hs]; exact mergeSort_desc_sorted (fun t => getScore scores t) highest
    have hnds : sortedHighest.Nodup := hsp.symm.nodup hndhigh
    have hmems : ∀ t, t ∈ sortedHighest ↔ t ∈ tiedTeams alive :=
      fun t => hsp.mem_iff.trans (hmemhigh t)
    have hndt : (tiedTeams alive).Nodup := by
      unfold tiedTeams
      exact List.Nodup.filter _ (by unfold aliveTeams; exact List.nodup_dedup _)
    clear hs hh hm hD
    cases hsh : sortedHighest with
    | nil =>
      have htd : tiedTeams alive = [] :=
        List.eq_nil_iff_forall_not_mem.2 (fun t ht => by
          have hmem := (hmems t).2 ht
          rw [hsh] at hmem
          exact absurd hmem (List.not_mem_nil t))
      unfold specController
      rw [htd]
      rfl
    | cons t1 tl =>
      cases tl with
      | nil =>
        rw [hsh] at hmems
        have htd : tiedTeams alive = [t1] :=
          eq_singleton_of_nodup_mem_iff _ _ hndt (fun x =>
            (hmems x).symm.trans List.mem_singleton)
        unfold specController
        rw [htd]
        rfl
      | cons t2 rest =>
        rw [hsh] at hss hnds hmems
        have ht1tied : t1 ∈ tiedTeams alive :=
          (hmems t1).1 (List.mem_cons_self _ _)
        have ht2tied : t2 ∈ tiedTeams alive :=
          (hmems t2).1 (List.mem_cons_of_mem _ (List.mem_cons_self _ _))
        have hne12 : t1 ≠ t2 := by
          rcases List.nodup_cons.1 hnds with ⟨hn1, _⟩
          intro h
          exact hn1 (h ▸ List.mem_cons_self t2 rest)
        have hsc1 : ∀ u ∈ tiedTeams alive,
            getScore scores u ≤ getScore scores t1 := by
          intro u hu
          rcases List.mem_cons.1 ((hmems u).2 hu) with rfl | hu2
          · exact le_refl _
          · exact (List.pairwise_cons.1 hss).1 u hu2
        have hsc2 : getScore scores t2 ≤ getScore scores t1 :=
          (List.pairwise_cons.1 hss).1 t2 (List.mem_cons_self _ _)
        have hsc_tail : ∀ u ∈ t2 :: rest,
            getScore scores u ≤ getScore scores t2 := by
          intro u hu
          rcases List.mem_cons.1 hu with rfl | hu2
          · exact le_refl _
          · exact (List.pairwise_cons.1 (List.pairwise_cons.1 hss).2).1 u hu2
        obtain ⟨u1, u2, urest, htt⟩ :
            ∃ u1 u2 urest, tiedTeams alive = u1 :: u2 :: urest := by
          rcases htd : tiedTeams alive with _ | ⟨u1, _ | ⟨u2, urest⟩⟩
          · rw [htd] at ht1tied
            exact absurd ht1tied (List.not_mem_nil _)
          · rw [htd] at ht1tied ht2tied
            have e1 : t1 = u1 := List.mem_singleton.1 ht1tied
            have e2 : t2 = u1 := List.mem_singleton.1 ht2tied
            exact absurd (e1.trans e2.symm) hne12
          · exact ⟨u1, u2, urest, rfl⟩
        have hspec : specController scores alive =
            strictMaxScore scores (tiedTeams alive) := by
          unfold specController
          rw [htt]
        rw [hspec]
        by_cases heq : getScore scores t1 = getScore scores t2
        · have hpd : pickDominant scores (t1 :: t2 :: rest) = none := by
            have he : pickDominant scores (t1 :: t2 :: rest) =
                if getScore scores t1 = getScore scores t2 then none
                else some t1 := rfl
            rw [he, if_pos heq]
          rw [hpd]
          have hfil : (tiedTeams alive).filter
              (fun t => (tiedTeams alive).all
                (fun u => u == t || decide (getScore scores u < getScore scores t))) = [] := by
            rw [List.filter_eq_nil_iff]
            intro x hx hall
            rw [List.all_eq_true] at hall
            by_cases hx1 : x = t1
            · subst hx1
              have h2 := hall t2 ht2tied
              simp only [Bool.or_eq_true, beq_iff_eq, decide_eq_true_eq] at h2
              rcases h2 with h2 | h2
              · exact hne12 h2.symm
              · omega
            · have h2 := hall t1 ht1tied
              simp only [Bool.or_eq_true, beq_iff_eq, decide_eq_true_eq] at h2
              rcases h2 with h2 | h2
              · exact hx1 h2.symm
              · have h3 := hsc1 x hx
                omega
          unfold strictMaxScore
          rw [hfil]
        · have hpd : pickDominant scores (t1 :: t2 :: rest) = some t1 := by
            have he : pickDominant scores (t1 :: t2 :: rest) =
                if getScore scores t1 = getScore scores t2 then none
                else some t1 := rfl
            rw [he, if_neg heq]
          rw [hpd]
          have hfil : (tiedTeams alive).filter
              (fun t => (tiedTeams alive).all
                (fun u => u == t || decide (getScore scores u < getScore scores t))) = [t1] := by
            apply filter_eq_singleton_of_nodup _ _ _ hndt ht1tied
            intro x hx
            constructor
            · intro hall
              rw [List.all_eq_true] at hall
              have h2 := hall t1 ht1tied
              simp only [Bool.or_eq_true, beq_iff_eq, decide_eq_true_eq] at h2
              rcases h2 with h2 | h2
              · exact h2.symm
              · have h3 := hsc1 x hx
                exact absurd h2 (by omega)
            · intro hx1
              subst hx1
              rw [List.all_eq_true]
              intro u hu
              by_cases hut : u = x
              · simp [hut]
              · have humem : u ∈ t2 :: rest := by
                  rcases List.mem_cons.1 ((hmems u).2 hu) with rfl | h5
                  · exact absurd rfl hut
                  · exact h5
                have h5 := hsc_tail u humem
                simp only [Bool.or_eq_true, beq_iff_eq, decide_eq_true_eq]
                right
                omega
          unfold strictMaxScore
          rw [hfil]

theorem passBPick_eq_specController (scores : List (String × Int))
    (alive : List Cell) :
    passBPick scores alive = specController scores alive := by
  unfold passBPick
  exact passBPick_core scores alive _ _ _ _ _ rfl rfl rfl rfl rfl

/-- C3: a Pass B candidate is revived iff it has at least 3 alive
neighbours in the pre-round snapshot (a constant 3, independent of
`to-kill`) and a unique controlling team exists — the strict maximum-tally
team, or among tally-tied teams the one with the strictly highest current
score, with no revival when the top two tied teams have equal scores; on
revival the new cell carries the controlling team and lifespan
`death-age`, and that team's score is incremented: the source's selection
equals the spec-worded `specPassBStep` on every input. -/
theorem passBStep_eq_spec (props : Props) (snap : List (Pos × Cell))
    (st : BState) (p : Pos) :
    passBStep props snap st p = specPassBStep props snap st p := by
  unfold passBStep specPassBStep
  dsimp only
  rw [passBPick_eq_specController]

end GameOfWar
